import Mathlib

/-!
Shallow embedding of the core of `main.py` from the Automated_docstring_for_python
repository: the AST-based metadata extractor (`extract_metadata`), the docstring
synthesizer (`DocstringGenerator`), the pydocstyle wrapper (`validate_docstrings`)
and the reporting entry point (`run`).

Python's `ast` module is modelled by the inductive types `Expr` and `Stmt` below;
`ast.walk` (a breadth-first traversal driven by a FIFO queue) is modelled by
`bfsWalk`.  Machine-level details that the code never relies on (interning,
hashing) are not modelled; Python `float` percentages are modelled as exact
rationals, and the external pydocstyle checker is modelled as an
`Except String (List Violation)` value handed to `run` (`.error` models the
checker raising an exception, which `validate_docstrings` catches).
-/

namespace AutoDocstring

/-- One positional parameter of a `def` (an element of `node.args.args`):
its name and the `ast.unparse` text of its annotation, if any. -/
structure Arg where
  arg : String
  annot : Option String
deriving DecidableEq

/-- Python expression nodes, restricted to the shapes `main.py` inspects:
`ast.Name`, `ast.Attribute`, `ast.Call`, string constants (for docstring
detection), `ast.Yield`/`ast.YieldFrom`, and a catch-all for every other
expression kind (which only matters as a container of sub-expressions). -/
inductive Expr where
  | name (id : String)
  | attrExpr (value : Expr) (attr : String)
  | call (func : Expr) (args : List Expr)
  | strLit (s : String)
  | yieldExpr (value : Option Expr)
  | otherE (sub : List Expr)

/-- Python statement nodes, restricted to the shapes `main.py` inspects:
`ast.FunctionDef`/`ast.AsyncFunctionDef` (treated identically by the code),
`ast.ClassDef`, `ast.Return`, `ast.Raise`, `ast.Expr`, `ast.Assign`,
`ast.AnnAssign`, and a catch-all `compound` for every other statement kind
(`if`, `for`, `try`, ... — containers of expressions and sub-statements).
Every statement carries its 1-based `lineno` and `end_lineno`. -/
inductive Stmt where
  | functionDef (name : String) (lineno endLineno : Nat) (args : List Arg)
      (retAnnot : Option String) (body : List Stmt)
  | classDef (name : String) (lineno endLineno : Nat) (body : List Stmt)
  | ret (lineno endLineno : Nat) (value : Option Expr)
  | raiseStmt (lineno endLineno : Nat) (exc : Option Expr)
  | exprStmt (lineno endLineno : Nat) (value : Expr)
  | assign (lineno endLineno : Nat) (targets : List Expr) (value : Expr)
  | annAssign (lineno endLineno : Nat) (target : Expr) (value : Option Expr)
  | compound (lineno endLineno : Nat) (exprs : List Expr) (body : List Stmt)

/-- `getattr(node, 'end_lineno', node.lineno)` for a statement node. -/
def stmtEnd : Stmt → Nat
  | .functionDef _ _ e _ _ _ => e
  | .classDef _ _ e _ => e
  | .ret _ e _ => e
  | .raiseStmt _ e _ => e
  | .exprStmt _ e _ => e
  | .assign _ e _ _ => e
  | .annAssign _ e _ _ => e
  | .compound _ e _ _ => e

/-- `node.lineno` for a statement node. -/
def stmtStart : Stmt → Nat
  | .functionDef _ l _ _ _ _ => l
  | .classDef _ l _ _ => l
  | .ret l _ _ => l
  | .raiseStmt l _ _ => l
  | .exprStmt l _ _ => l
  | .assign l _ _ _ => l
  | .annAssign l _ _ _ => l
  | .compound l _ _ _ => l

/-- The sub-statements of a statement (the statement children that
`ast.iter_child_nodes` yields; expression children carry no statements in the
modelled grammar, so only these matter for which statements `ast.walk` visits). -/
def stmtChildren : Stmt → List Stmt
  | .functionDef _ _ _ _ _ body => body
  | .classDef _ _ _ body => body
  | .compound _ _ _ body => body
  | _ => []

mutual
/-- Number of statement nodes in the subtree rooted at a statement
(a termination measure for the queue-driven `ast.walk` model). -/
def stmtWeight : Stmt → Nat
  | .functionDef _ _ _ _ _ body => 1 + stmtListWeight body
  | .classDef _ _ _ body => 1 + stmtListWeight body
  | .compound _ _ _ body => 1 + stmtListWeight body
  | .ret _ _ _ => 1
  | .raiseStmt _ _ _ => 1
  | .exprStmt _ _ _ => 1
  | .assign _ _ _ _ => 1
  | .annAssign _ _ _ _ => 1

/-- Total number of statement nodes in a list of subtrees. -/
def stmtListWeight : List Stmt → Nat
  | [] => 0
  | s :: rest => stmtWeight s + stmtListWeight rest
end

theorem stmtWeight_pos (s : Stmt) : 1 ≤ stmtWeight s := by
  cases s <;> simp [stmtWeight] <;> omega

theorem stmtListWeight_append (l₁ l₂ : List Stmt) :
    stmtListWeight (l₁ ++ l₂) = stmtListWeight l₁ + stmtListWeight l₂ := by
  induction l₁ with
  | nil => simp [stmtListWeight]
  | cons s rest ih => simp [stmtListWeight, ih]; omega

theorem stmtListWeight_children_lt (s : Stmt) :
    stmtListWeight (stmtChildren s) < stmtWeight s := by
  cases s <;> simp [stmtChildren, stmtWeight, stmtListWeight] <;> omega

/-- Fuelled version of the FIFO-queue loop inside `ast.walk`:
pop the front node, yield it, push its children at the back. -/
def walkFuel : Nat → List Stmt → List Stmt
  | 0, _ => []
  | _, [] => []
  | fuel + 1, s :: rest => s :: walkFuel fuel (rest ++ stmtChildren s)

theorem walkFuel_congr :
    ∀ n m q, stmtListWeight q ≤ n → stmtListWeight q ≤ m → walkFuel n q = walkFuel m q := by
  intro n
  induction n with
  | zero =>
    intro m q hn _
    cases q with
    | nil => cases m <;> simp [walkFuel]
    | cons s rest =>
      exfalso
      have := stmtWeight_pos s
      simp [stmtListWeight] at hn
      omega
  | succ n ih =>
    intro m q hn hm
    cases q with
    | nil => cases m <;> simp [walkFuel]
    | cons s rest =>
      have hw := stmtWeight_pos s
      have hwc := stmtListWeight_children_lt s
      cases m with
      | zero =>
        exfalso
        simp [stmtListWeight] at hm
        omega
      | succ m =>
        simp only [walkFuel, List.cons.injEq, true_and]
        apply ih
        · rw [stmtListWeight_append]
          simp [stmtListWeight] at hn
          omega
        · rw [stmtListWeight_append]
          simp [stmtListWeight] at hm
          omega

/-- Model of `ast.walk(...)` started on a queue of statements: breadth-first,
in queue order, exactly as in `Lib/ast.py` (`walk` uses a `deque`, popping left
and extending right with child nodes).  Expression nodes also sit in the real
queue but never contribute statements, so the statement subsequence produced is
the one modelled here. -/
def bfsWalk (q : List Stmt) : List Stmt := walkFuel (stmtListWeight q) q

theorem bfsWalk_nil : bfsWalk [] = [] := rfl

theorem bfsWalk_cons (s : Stmt) (rest : List Stmt) :
    bfsWalk (s :: rest) = s :: bfsWalk (rest ++ stmtChildren s) := by
  have hw := stmtWeight_pos s
  have hwc := stmtListWeight_children_lt s
  unfold bfsWalk
  have h1 : stmtListWeight (s :: rest) = (stmtWeight s - 1 + stmtListWeight rest) + 1 := by
    simp [stmtListWeight]
    omega
  rw [h1]
  show s :: walkFuel (stmtWeight s - 1 + stmtListWeight rest) (rest ++ stmtChildren s) = _
  congr 1
  apply walkFuel_congr <;> rw [stmtListWeight_append] <;> omega

/-- Python's `str` comparison, code-point lexicographic, on character lists. -/
def charListLe : List Char → List Char → Bool
  | [], _ => true
  | _ :: _, [] => false
  | a :: as, b :: bs =>
    if a < b then true
    else if b < a then false
    else charListLe as bs

/-- Python's `a <= b` on strings: code-point lexicographic comparison. -/
def strLe (a b : String) : Bool := charListLe a.data b.data

/-- `strLe` as a relation, for use with sorting. -/
def strLeRel (a b : String) : Prop := strLe a b = true

instance instDecRelStrLe : DecidableRel strLeRel :=
  fun a b => inferInstanceAs (Decidable (strLe a b = true))

theorem charListLe_total : ∀ as bs : List Char, charListLe as bs = true ∨ charListLe bs as = true := by
  intro as
  induction as with
  | nil => intro bs; left; simp [charListLe]
  | cons a as ih =>
    intro bs
    cases bs with
    | nil => right; simp [charListLe]
    | cons b bs =>
      rcases lt_trichotomy a b with h | h | h
      · left; simp [charListLe, h]
      · subst h
        rcases ih bs with h' | h' <;> [left; right] <;> simp [charListLe, lt_irrefl, h']
      · right; simp [charListLe, h]

theorem charListLe_trans :
    ∀ as bs cs : List Char, charListLe as bs = true → charListLe bs cs = true →
      charListLe as cs = true := by
  intro as
  induction as with
  | nil => intro bs cs _ _; simp [charListLe]
  | cons a as ih =>
    intro bs cs h1 h2
    cases bs with
    | nil => simp [charListLe] at h1
    | cons b bs =>
      cases cs with
      | nil => simp [charListLe] at h2
      | cons c cs =>
        rcases lt_trichotomy a b with hab | hab | hab
        · rcases lt_trichotomy b c with hbc | hbc | hbc
          · have : a < c := lt_trans hab hbc
            simp [charListLe, this]
          · subst hbc; simp [charListLe, hab]
          · simp [charListLe, hbc, lt_asymm hbc] at h2
        · subst hab
          rcases lt_trichotomy a c with hac | hac | hac
          · simp [charListLe, hac]
          · subst hac
            simp [charListLe, lt_irrefl] at h1 h2 ⊢
            exact ih _ _ h1 h2
          · simp [charListLe, hac, lt_asymm hac] at h2
        · simp [charListLe, hab, lt_asymm hab] at h1

theorem charListLe_antisymm :
    ∀ as bs : List Char, charListLe as bs = true → charListLe bs as = true → as = bs := by
  intro as
  induction as with
  | nil =>
    intro bs _ h2
    cases bs with
    | nil => rfl
    | cons b bs => simp [charListLe] at h2
  | cons a as ih =>
    intro bs h1 h2
    cases bs with
    | nil => simp [charListLe] at h1
    | cons b bs =>
      rcases lt_trichotomy a b with hab | hab | hab
      · simp [charListLe, hab, lt_asymm hab] at h2
      · subst hab
        simp [charListLe, lt_irrefl] at h1 h2
        rw [ih _ h1 h2]
      · simp [charListLe, hab, lt_asymm hab] at h1

instance : IsTotal String strLeRel :=
  ⟨fun a b => charListLe_total a.data b.data⟩

instance : IsTrans String strLeRel :=
  ⟨fun _ _ _ h1 h2 => charListLe_trans _ _ _ h1 h2⟩

instance : IsAntisymm String strLeRel :=
  ⟨fun a b h1 h2 => String.ext (charListLe_antisymm _ _ h1 h2)⟩

/-- Python's `sorted(...)` on a collection of strings: the ascending
code-point-lexicographic reordering. -/
def sortedStrings (l : List String) : List String := List.insertionSort strLeRel l

theorem sortedStrings_sorted (l : List String) : List.Sorted strLeRel (sortedStrings l) :=
  List.sorted_insertionSort strLeRel l

theorem sortedStrings_perm (l : List String) : (sortedStrings l).Perm l :=
  List.perm_insertionSort strLeRel l

theorem sortedStrings_congr_perm {l l' : List String} (h : l.Perm l') :
    sortedStrings l = sortedStrings l' := by
  apply List.eq_of_perm_of_sorted _ (sortedStrings_sorted l) (sortedStrings_sorted l')
  exact ((sortedStrings_perm l).trans h).trans (sortedStrings_perm l').symm

/-- Python's `str.lower()` (restricted to per-character ASCII lowering, which is
all the code ever applies it to: style names). -/
def pyLower (s : String) : String := ⟨s.data.map Char.toLower⟩

mutual
/-- Whether an expression subtree contains an `ast.Yield` or `ast.YieldFrom`
node (`ast.walk` visits every expression node of the function subtree). -/
def exprHasYield : Expr → Bool
  | .name _ => false
  | .attrExpr v _ => exprHasYield v
  | .call f args => exprHasYield f || exprListHasYield args
  | .strLit _ => false
  | .yieldExpr _ => true
  | .otherE sub => exprListHasYield sub

/-- Whether any expression in a list contains a yield node. -/
def exprListHasYield : List Expr → Bool
  | [] => false
  | e :: rest => exprHasYield e || exprListHasYield rest
end

/-- The expressions held directly by one statement node (the expression
children that `ast.walk` descends into from that statement). -/
def stmtExprs : Stmt → List Expr
  | .functionDef _ _ _ _ _ _ => []
  | .classDef _ _ _ _ => []
  | .ret _ _ (some v) => [v]
  | .ret _ _ none => []
  | .raiseStmt _ _ (some e) => [e]
  | .raiseStmt _ _ none => []
  | .exprStmt _ _ v => [v]
  | .assign _ _ targets v => targets ++ [v]
  | .annAssign _ _ t v => t :: v.toList
  | .compound _ _ exprs _ => exprs

/-- `isinstance(subnode, ast.Return) and subnode.value` for one statement. -/
def isValueReturn : Stmt → Bool
  | .ret _ _ (some _) => true
  | _ => false

/-- The `raise`-analysis of `extract_metadata`: resolve `subnode.exc` to an
error name.  A `Call` whose callee is a `Name` yields `func.id`; a `Call`
whose callee is an `Attribute` yields `func.attr`; a bare `Name` yields its
id; anything else is silently skipped. -/
def raiseName : Expr → Option String
  | .call (.name id) _ => some id
  | .call (.attrExpr _ a) _ => some a
  | .call _ _ => none
  | .name id => some id
  | _ => none

/-- Python `set.add` on a set modelled as an insertion-ordered duplicate-free
list: append the element if it is not already present. -/
def insertSet (l : List String) (x : String) : List String :=
  if x ∈ l then l else l ++ [x]

/-- `ast.get_docstring(node) is not None`: the body's first statement is an
expression statement holding a string constant. -/
def hasDocstringOf (body : List Stmt) : Bool :=
  match body with
  | .exprStmt _ _ (.strLit _) :: _ => true
  | _ => false

/-- One entity record of `extract_metadata`'s `nodes_info` list.  The Python
code uses per-kind dicts; here a single record with defaulted fields stands in
(the code only ever reads the fields its kind populates). -/
structure NodeInfo where
  type : String
  name : String
  lineno : Nat
  endLineno : Nat
  params : List (String × Option String) := []
  returnType : Option String := none
  returns : Bool := false
  yields : Bool := false
  raises : List String := []
  attributes : List String := []
  hasDocstring : Bool
deriving DecidableEq

/-- The parameter loop of `extract_metadata`: walk `node.args.args` in order,
skipping any argument named `self` or `cls`, recording `(name, unparsed
annotation)` for the rest. -/
def funcParams (args : List Arg) : List (String × Option String) :=
  args.foldl (fun acc a =>
    if a.arg = "self" ∨ a.arg = "cls" then acc
    else acc ++ [(a.arg, a.annot)]) []

/-- `returns` flag: some `ast.Return` with a value occurs among
`ast.walk(node)` (the whole subtree, nested definitions included). -/
def funcReturns (node : Stmt) : Bool :=
  (bfsWalk [node]).any isValueReturn

/-- `yields` flag: some `ast.Yield`/`ast.YieldFrom` occurs among the
expressions of `ast.walk(node)` (the whole subtree, nested definitions
included). -/
def funcYields (node : Stmt) : Bool :=
  (bfsWalk [node]).any (fun s => exprListHasYield (stmtExprs s))

/-- `raises` set: fold over `ast.walk(node)`, adding the resolved name of
every `ast.Raise` with an `exc` that resolves. -/
def funcRaises (node : Stmt) : List String :=
  (bfsWalk [node]).foldl (fun acc s =>
    match s with
    | .raiseStmt _ _ (some e) =>
      match raiseName e with
      | some nm => insertSet acc nm
      | none => acc
    | _ => acc) []

/-- The class-attribute loop: direct `Assign` targets that are plain names,
and `AnnAssign` targets that are plain names, in body order. -/
def classAttrs (body : List Stmt) : List String :=
  body.foldl (fun acc s =>
    match s with
    | .assign _ _ targets _ =>
      targets.foldl (fun acc2 t =>
        match t with
        | .name id => acc2 ++ [id]
        | _ => acc2) acc
    | .annAssign _ _ (.name id) _ => acc ++ [id]
    | _ => acc) []

/-- The per-node dispatch in `extract_metadata`'s walk loop: a `FunctionDef`
(or `AsyncFunctionDef`) yields a function record, a `ClassDef` a class record,
anything else nothing. -/
def nodeInfoOf : Stmt → Option NodeInfo
  | .functionDef nm ln el args ra body => some
      { type := "function", name := nm, lineno := ln, endLineno := el,
        params := funcParams args, returnType := ra,
        returns := funcReturns (.functionDef nm ln el args ra body),
        yields := funcYields (.functionDef nm ln el args ra body),
        raises := funcRaises (.functionDef nm ln el args ra body),
        hasDocstring := hasDocstringOf body }
  | .classDef nm ln el body => some
      { type := "class", name := nm, lineno := ln, endLineno := el,
        attributes := classAttrs body,
        hasDocstring := hasDocstringOf body }
  | _ => none

/-- The `max_line` computation: fold `max` of `end_lineno` over every walked
node, starting from 1.  (Expression nodes are walked too in Python, but a
CPython expression's `end_lineno` never exceeds its enclosing statement's, so
the maximum over statements is the same.) -/
def maxLineOf (tree : List Stmt) : Nat :=
  (bfsWalk tree).foldl (fun m s => max m (stmtEnd s)) 1

/-- The Module record appended first by `extract_metadata`: fixed name
`"Module"`, span from line 1 to the maximum walked line. -/
def moduleInfo (tree : List Stmt) : NodeInfo :=
  { type := "module", name := "Module", lineno := 1, endLineno := maxLineOf tree,
    hasDocstring := hasDocstringOf tree }

/-- `extract_metadata(source_code)`: the Module record (spanning line 1 to the
maximum walked line) followed by one record per `FunctionDef`/`ClassDef` in
`ast.walk` order.  The input is the parsed module body, so quantifying over
`tree` quantifies over syntactically well-formed source texts. -/
def extract_metadata (tree : List Stmt) : List NodeInfo :=
  moduleInfo tree :: (bfsWalk tree).filterMap nodeInfoOf

mutual
/-- All statement nodes of a statement's subtree, in depth-first pre-order:
the reference enumeration used to state what "anywhere in the subtree" means,
proved below to agree with the breadth-first `ast.walk` on any-queries. -/
def allNodes : Stmt → List Stmt
  | .functionDef nm l e a r body => .functionDef nm l e a r body :: allNodesList body
  | .classDef nm l e body => .classDef nm l e body :: allNodesList body
  | .compound l e ex body => .compound l e ex body :: allNodesList body
  | s => [s]

/-- All statement nodes of a forest, depth-first. -/
def allNodesList : List Stmt → List Stmt
  | [] => []
  | s :: rest => allNodes s ++ allNodesList rest
end

theorem allNodes_eq (s : Stmt) : allNodes s = s :: allNodesList (stmtChildren s) := by
  cases s <;> simp [allNodes, stmtChildren, allNodesList]

theorem allNodesList_append (l₁ l₂ : List Stmt) :
    allNodesList (l₁ ++ l₂) = allNodesList l₁ ++ allNodesList l₂ := by
  induction l₁ with
  | nil => simp [allNodesList]
  | cons s rest ih => simp [allNodesList, ih]

/-- The breadth-first `ast.walk` and the depth-first subtree enumeration see
the same statements, as far as any Boolean any-query is concerned. -/
theorem bfsWalk_any (p : Stmt → Bool) :
    ∀ n q, stmtListWeight q ≤ n → (bfsWalk q).any p = (allNodesList q).any p := by
  intro n
  induction n with
  | zero =>
    intro q hn
    cases q with
    | nil => simp [bfsWalk_nil, allNodesList]
    | cons s rest =>
      exfalso
      have := stmtWeight_pos s
      simp [stmtListWeight] at hn
      omega
  | succ n ih =>
    intro q hn
    cases q with
    | nil => simp [bfsWalk_nil, allNodesList]
    | cons s rest =>
      have hw := stmtWeight_pos s
      have hwc := stmtListWeight_children_lt s
      have hrec : stmtListWeight (rest ++ stmtChildren s) ≤ n := by
        rw [stmtListWeight_append]
        simp [stmtListWeight] at hn
        omega
      rw [bfsWalk_cons, List.any_cons, ih _ hrec, allNodesList_append]
      show (p s || _) = List.any (allNodes s ++ allNodesList rest) p
      rw [allNodes_eq]
      simp [List.any_append, List.any_cons, Bool.or_comm, Bool.or_assoc, Bool.or_left_comm]

/-- One `Args:` line of `_generate_google_func`:
`f"    {p}{type_hint}: Description for {p}.\n"` with
`type_hint = f" ({t})" if t else ""`. -/
def googleParamLine (pt : String × Option String) : String :=
  "    " ++ pt.1 ++ (match pt.2 with | some t => " (" ++ t ++ ")" | none => "") ++
    ": Description for " ++ pt.1 ++ ".\n"

/-- One `Raises:` line of `_generate_google_func`. -/
def googleRaiseLine (r : String) : String :=
  "    " ++ r ++ ": Description for " ++ r ++ ".\n"

/-- The `Args:` block of `_generate_google_func` (empty when no parameters). -/
def googleParamsBlock (ps : List (String × Option String)) : String :=
  if ps.isEmpty then "" else "Args:\n" ++ String.join (ps.map googleParamLine)

/-- The `Yields:`/`Returns:` section of `_generate_google_func`:
yields wins, else returns, else nothing. -/
def googleBodyBlock (info : NodeInfo) : String :=
  if info.yields then "\nYields:\n" ++ "    Description of the yielded values.\n"
  else if info.returns then
    "\nReturns:\n" ++ "    " ++
      (match info.returnType with | some t => t ++ ": " | none => "") ++
      "Description of the return value.\n"
  else ""

/-- The `Raises:` block of `_generate_google_func`, over `sorted(raises)`. -/
def googleRaisesBlock (rs : List String) : String :=
  if rs.isEmpty then ""
  else "\nRaises:\n" ++ String.join ((sortedStrings rs).map googleRaiseLine)

/-- `DocstringGenerator._generate_google_func`. -/
def generateGoogleFunc (info : NodeInfo) : String :=
  "\"\"\"" ++ info.name ++ " function.\n\n" ++ googleParamsBlock info.params ++
    googleBodyBlock info ++ googleRaisesBlock info.raises ++ "\"\"\""

/-- One parameter block of `_generate_numpy_func`. -/
def numpyParamLine (pt : String × Option String) : String :=
  pt.1 ++ (match pt.2 with | some t => " : " ++ t | none => "") ++
    "\n    Description for " ++ pt.1 ++ ".\n"

/-- One `Raises` block entry of `_generate_numpy_func`. -/
def numpyRaiseLine (r : String) : String :=
  r ++ "\n    Description for " ++ r ++ ".\n"

/-- The `Parameters` block of `_generate_numpy_func`. -/
def numpyParamsBlock (ps : List (String × Option String)) : String :=
  if ps.isEmpty then "" else "Parameters\n----------\n" ++ String.join (ps.map numpyParamLine)

/-- The `Yields`/`Returns` section of `_generate_numpy_func`. -/
def numpyBodyBlock (info : NodeInfo) : String :=
  if info.yields then "\nYields\n------\n" ++ "Description of the yielded values.\n"
  else if info.returns then
    "\nReturns\n-------\n" ++
      (match info.returnType with | some t => t ++ "\n" | none => "") ++
      "    Description of the return value.\n"
  else ""

/-- The `Raises` block of `_generate_numpy_func`, over `sorted(raises)`. -/
def numpyRaisesBlock (rs : List String) : String :=
  if rs.isEmpty then ""
  else "\nRaises\n------\n" ++ String.join ((sortedStrings rs).map numpyRaiseLine)

/-- `DocstringGenerator._generate_numpy_func`. -/
def generateNumpyFunc (info : NodeInfo) : String :=
  "\"\"\"" ++ info.name ++ " function.\n\n" ++ numpyParamsBlock info.params ++
    numpyBodyBlock info ++ numpyRaisesBlock info.raises ++ "\"\"\""

/-- One parameter chunk of `_generate_rest_func`: the `:param:` line, plus a
`:type:` line when the parameter is annotated. -/
def restParamChunk (pt : String × Option String) : String :=
  ":param " ++ pt.1 ++ ": Description for " ++ pt.1 ++ ".\n" ++
    (match pt.2 with | some t => ":type " ++ pt.1 ++ ": " ++ t ++ "\n" | none => "")

/-- One `:raises:` line of `_generate_rest_func`. -/
def restRaiseLine (r : String) : String :=
  ":raises " ++ r ++ ": Description for " ++ r ++ ".\n"

/-- The parameter section of `_generate_rest_func` (a bare loop, no header). -/
def restParamsBlock (ps : List (String × Option String)) : String :=
  String.join (ps.map restParamChunk)

/-- The `:yields:`/`:returns:` section of `_generate_rest_func`. -/
def restBodyBlock (info : NodeInfo) : String :=
  if info.yields then "\n:yields: Description of the yielded values.\n"
  else if info.returns then
    "\n:returns: Description of the return value.\n" ++
      (match info.returnType with | some t => ":rtype: " ++ t ++ "\n" | none => "")
  else ""

/-- The `:raises:` section of `_generate_rest_func`, over `sorted(raises)`. -/
def restRaisesBlock (rs : List String) : String :=
  if rs.isEmpty then "" else String.join ((sortedStrings rs).map restRaiseLine)

/-- `DocstringGenerator._generate_rest_func`. -/
def generateRestFunc (info : NodeInfo) : String :=
  "\"\"\"" ++ info.name ++ " function.\n\n" ++ restParamsBlock info.params ++
    restBodyBlock info ++ restRaisesBlock info.raises ++ "\"\"\""

/-- The attribute block of `_generate_class_doc`, dispatching on the style
(google, numpy, anything else is treated as reST). -/
def classAttrBlock (style : String) (attrs : List String) : String :=
  if attrs.isEmpty then ""
  else if style = "google" then
    "Attributes:\n" ++ String.join (attrs.map fun a => "    " ++ a ++ ": Description.\n")
  else if style = "numpy" then
    "Attributes\n----------\n" ++ String.join (attrs.map fun a => a ++ "\n    Description.\n")
  else
    String.join (attrs.map fun a => ":ivar " ++ a ++ ": Description.\n")

/-- `DocstringGenerator._generate_class_doc`. -/
def generateClassDoc (style : String) (info : NodeInfo) : String :=
  "\"\"\"" ++ info.name ++ " class.\n\n" ++ classAttrBlock style info.attributes ++ "\"\"\""

/-- `class DocstringGenerator`: holds the (lowercased) style string. -/
structure DocstringGenerator where
  style : String
deriving DecidableEq

/-- `DocstringGenerator.__init__`: `self.style = style.lower()`. -/
def DocstringGenerator.new (style : String) : DocstringGenerator := ⟨pyLower style⟩

/-- `DocstringGenerator.generate`: dispatch on entity kind and style; an
unrecognized kind (or a function with an unrecognized style) falls through to
the final `return ""`. -/
def DocstringGenerator.generate (g : DocstringGenerator) (info : NodeInfo) : String :=
  if info.type = "function" then
    if g.style = "google" then generateGoogleFunc info
    else if g.style = "numpy" then generateNumpyFunc info
    else if g.style = "rest" then generateRestFunc info
    else ""
  else if info.type = "class" then generateClassDoc g.style info
  else ""

/-- One violation dict built by `validate_docstrings` from a pydocstyle error:
`{"code", "message", "line", "short_desc"}`. -/
structure Violation where
  code : String
  message : String
  line : Nat
  shortDesc : String
deriving DecidableEq

/-- One element of the `generated_docs` list built by `run`. -/
structure GeneratedDoc where
  name : String
  type : String
  docstring : String
deriving DecidableEq

/-- The report dict built by `run`.  Python floats are modelled as exact
rationals; the integer `compliant_entities = total - len(...)` subtraction is
modelled on `Int`, as in Python. -/
structure Report where
  totalFunctions : Nat
  totalClasses : Nat
  documentedFunctions : Nat
  documentedClasses : Nat
  hasModuleDoc : Bool
  total : Nat
  withDoc : Nat
  missing : Int
  coveragePercentage : ℚ
  compliance : String
  compliancePercentage : ℚ
  violations : List Violation
deriving DecidableEq

/-- `validate_docstrings(file_path, ...)`: the external checker call is
modelled by its outcome; on success every error is carried through as a
violation record, and a raised exception is caught (printing a diagnostic) and
yields the empty list. -/
def validate_docstrings (checkResult : Except String (List Violation)) : List Violation :=
  match checkResult with
  | .ok errs => errs
  | .error _ => []

/-- The inner `for node in nodes: if ...: add; break` of the reconciliation
loop: the first entity (in list order) whose `[lineno, end_lineno]` span
contains the violation's line is added to the set; a violation matching no
entity adds nothing. -/
def attributeViolation (nodes : List NodeInfo) (acc : List String) (v : Violation) :
    List String :=
  match nodes.find? (fun n => n.lineno ≤ v.line && v.line ≤ n.endLineno) with
  | some n => insertSet acc n.name
  | none => acc

/-- The reconciliation loop of `run`, computing `entities_with_violations`. -/
def entitiesWithViolations (nodes : List NodeInfo) (violations : List Violation) :
    List String :=
  violations.foldl (attributeViolation nodes) []

/-- `total = total_funcs + total_classes + 1  # +1 for module`. -/
def totalEntities (nodes : List NodeInfo) : Nat :=
  (nodes.filter fun n => n.type = "function").length +
    (nodes.filter fun n => n.type = "class").length + 1

/-- `documented = doc_funcs + doc_classes + (1 if has_mod_doc else 0)`. -/
def documentedEntities (nodes : List NodeInfo) : Nat :=
  (nodes.filter fun n => n.type = "function" && n.hasDocstring).length +
    (nodes.filter fun n => n.type = "class" && n.hasDocstring).length +
    (if nodes.any (fun n => n.type = "module" && n.hasDocstring) then 1 else 0)

/-- `(documented / total * 100) if total > 0 else 100`. -/
def coveragePct (documented total : Nat) : ℚ :=
  if 0 < total then (documented : ℚ) / (total : ℚ) * 100 else 100

/-- `(compliant_entities / total * 100) if total > 0 else 100.0`, with
`compliant_entities = total - len(entities_with_violations)`. -/
def compliancePct (nodes : List NodeInfo) (violations : List Violation) : ℚ :=
  if 0 < totalEntities nodes then
    ((((totalEntities nodes : Int) -
        ((entitiesWithViolations nodes violations).length : Int)) : Int) : ℚ) /
      (totalEntities nodes : ℚ) * 100
  else 100

/-- The report literal of `run` before the `if validate:` block. -/
def baseReport (nodes : List NodeInfo) : Report :=
  { totalFunctions := (nodes.filter fun n => n.type = "function").length,
    totalClasses := (nodes.filter fun n => n.type = "class").length,
    documentedFunctions := (nodes.filter fun n => n.type = "function" && n.hasDocstring).length,
    documentedClasses := (nodes.filter fun n => n.type = "class" && n.hasDocstring).length,
    hasModuleDoc := nodes.any (fun n => n.type = "module" && n.hasDocstring),
    total := totalEntities nodes,
    withDoc := documentedEntities nodes,
    missing := (totalEntities nodes : Int) - (documentedEntities nodes : Int),
    coveragePercentage := coveragePct (documentedEntities nodes) (totalEntities nodes),
    compliance := "PASS",
    compliancePercentage := 100,
    violations := [] }

/-- `run(file_path, style, validate)`: the single entry point.  The file read
and parse are modelled by taking the parsed module body; the external checker
invocation (performed only when `validate` is true) is modelled by its outcome
`checkResult`.  Returns `(generated_docs, report)`. -/
def run (tree : List Stmt) (style : String) (validate : Bool)
    (checkResult : Except String (List Violation)) : List GeneratedDoc × Report :=
  let nodes := extract_metadata tree
  let generator := DocstringGenerator.new style
  let docs := nodes.filterMap fun n =>
    if n.hasDocstring then none
    else some { name := n.name, type := n.type, docstring := generator.generate n }
  if validate then
    let violations := validate_docstrings checkResult
    if violations.isEmpty then
      (docs, { baseReport nodes with violations := violations })
    else
      (docs, { baseReport nodes with
        violations := violations,
        compliance := "FAIL",
        compliancePercentage := compliancePct nodes violations })
  else
    (docs, baseReport nodes)

theorem run_false_snd (tree : List Stmt) (style : String)
    (c : Except String (List Violation)) :
    (run tree style false c).2 = baseReport (extract_metadata tree) := rfl

theorem run_true_snd_nov (tree : List Stmt) (style : String)
    (c : Except String (List Violation)) (h : (validate_docstrings c).isEmpty = true) :
    (run tree style true c).2 =
      { baseReport (extract_metadata tree) with violations := validate_docstrings c } := by
  simp [run, h]

theorem run_true_snd_viol (tree : List Stmt) (style : String)
    (c : Except String (List Violation)) (h : (validate_docstrings c).isEmpty = false) :
    (run tree style true c).2 =
      { baseReport (extract_metadata tree) with
        violations := validate_docstrings c,
        compliance := "FAIL",
        compliancePercentage := compliancePct (extract_metadata tree) (validate_docstrings c) } := by
  simp [run, h]

theorem run_snd_coverage (tree : List Stmt) (style : String) (validate : Bool)
    (c : Except String (List Violation)) :
    (run tree style validate c).2.total = totalEntities (extract_metadata tree) ∧
    (run tree style validate c).2.coveragePercentage =
      coveragePct (documentedEntities (extract_metadata tree))
        (totalEntities (extract_metadata tree)) ∧
    (run tree style validate c).2.totalFunctions =
      ((extract_metadata tree).filter fun n => n.type = "function").length ∧
    (run tree style validate c).2.totalClasses =
      ((extract_metadata tree).filter fun n => n.type = "class").length ∧
    (run tree style validate c).2.withDoc = documentedEntities (extract_metadata tree) := by
  cases validate
  · exact ⟨rfl, rfl, rfl, rfl, rfl⟩
  · rcases h : (validate_docstrings c).isEmpty with hf | ht
    · rw [run_true_snd_viol tree style c h]
      exact ⟨rfl, rfl, rfl, rfl, rfl⟩
    · rw [run_true_snd_nov tree style c h]
      exact ⟨rfl, rfl, rfl, rfl, rfl⟩

theorem nodeInfoOf_type (s : Stmt) (i : NodeInfo) (h : nodeInfoOf s = some i) :
    i.type = "function" ∨ i.type = "class" := by
  cases s <;> simp [nodeInfoOf] at h <;> simp [← h]

theorem totalEntities_pos (nodes : List NodeInfo) : 0 < totalEntities nodes := by
  unfold totalEntities
  omega

/-- Claim C3: extraction always returns exactly one Module entry, that entry
is the first element of the entity list, and the report's `total` equals
`totalFunctions + totalClasses + 1`, for every well-formed source tree. -/
theorem claim3_module_total (tree : List Stmt) (style : String) (validate : Bool)
    (checkResult : Except String (List Violation)) :
    ((extract_metadata tree).filter fun n => n.type = "module").length = 1 ∧
    (extract_metadata tree).head? = some (moduleInfo tree) ∧
    (moduleInfo tree).type = "module" ∧ (moduleInfo tree).name = "Module" ∧
    (run tree style validate checkResult).2.total =
      (run tree style validate checkResult).2.totalFunctions +
        (run tree style validate checkResult).2.totalClasses + 1 := by
  obtain ⟨ht, -, hf, hc, -⟩ := run_snd_coverage tree style validate checkResult
  refine ⟨?_, rfl, rfl, rfl, ?_⟩
  · show (List.filter _ (moduleInfo tree :: (bfsWalk tree).filterMap nodeInfoOf)).length = 1
    rw [List.filter_cons]
    have hrest : ((bfsWalk tree).filterMap nodeInfoOf).filter
        (fun n => n.type = "module") = [] := by
      rw [List.filter_eq_nil_iff]
      intro i hi
      rcases List.mem_filterMap.mp hi with ⟨s, -, hs⟩
      rcases nodeInfoOf_type s i hs with h | h <;> simp [h]
    rw [hrest]
    simp [moduleInfo]
  · rw [ht, hf, hc]
    rfl

/-- Claim C9: when the external checker raises, the run degrades gracefully —
the returned report is the one a validation-free run would produce: empty
violation list, compliance `PASS` at 100 %, coverage fields computed from the
entity list. -/
theorem claim9_checker_failure (tree : List Stmt) (style msg : String) :
    run tree style true (.error msg) = run tree style false (.ok []) ∧
    (run tree style true (.error msg)).2.violations = [] ∧
    (run tree style true (.error msg)).2.compliance = "PASS" ∧
    (run tree style true (.error msg)).2.compliancePercentage = 100 ∧
    (run tree style true (.error msg)).2.coveragePercentage =
      coveragePct (documentedEntities (extract_metadata tree))
        (totalEntities (extract_metadata tree)) := by
  exact ⟨rfl, rfl, rfl, rfl, rfl⟩

theorem documentedEntities_le (nodes : List NodeInfo) :
    documentedEntities nodes ≤ totalEntities nodes := by
  unfold documentedEntities totalEntities
  have key : ∀ l : List NodeInfo,
      ((l.filter fun n => n.type = "function" && n.hasDocstring).length ≤
        (l.filter fun n => n.type = "function").length) ∧
      ((l.filter fun n => n.type = "class" && n.hasDocstring).length ≤
        (l.filter fun n => n.type = "class").length) := by
    intro l
    induction l with
    | nil => simp
    | cons a l ih =>
      obtain ⟨ih1, ih2⟩ := ih
      by_cases h1 : a.type = "function" <;> by_cases h2 : a.hasDocstring = true <;>
        by_cases h3 : a.type = "class" <;>
        simp [List.filter_cons, h1, h2, h3] <;> omega
  obtain ⟨k1, k2⟩ := key nodes
  split <;> omega

theorem coveragePct_bounds (d t : Nat) (hd : d ≤ t) (ht : 0 < t) :
    0 ≤ coveragePct d t ∧ coveragePct d t ≤ 100 := by
  unfold coveragePct
  rw [if_pos ht]
  constructor
  · positivity
  · have h1 : (d : ℚ) / (t : ℚ) ≤ 1 := by
      rw [div_le_one (by exact_mod_cast ht)]
      exact_mod_cast hd
    calc (d : ℚ) / (t : ℚ) * 100 ≤ 1 * 100 :=
          mul_le_mul_of_nonneg_right h1 (by norm_num)
      _ = 100 := one_mul 100

/-- Claim C10: the report's coverage percentage always lies in `[0, 100]`
(the run's total is never zero), and the coverage expression is defined to be
100 when its total argument is zero, not a division failure. -/
theorem claim10_coverage_bounds (tree : List Stmt) (style : String) (validate : Bool)
    (checkResult : Except String (List Violation)) :
    (0 ≤ (run tree style validate checkResult).2.coveragePercentage ∧
     (run tree style validate checkResult).2.coveragePercentage ≤ 100 ∧
     (run tree style validate checkResult).2.total ≠ 0) ∧
    ∀ d : Nat, coveragePct d 0 = 100 := by
  obtain ⟨ht, hc, -, -, -⟩ := run_snd_coverage tree style validate checkResult
  obtain ⟨hb1, hb2⟩ := coveragePct_bounds (documentedEntities (extract_metadata tree))
    (totalEntities (extract_metadata tree))
    (documentedEntities_le _) (totalEntities_pos _)
  refine ⟨⟨?_, ?_, ?_⟩, ?_⟩
  · rw [hc]; exact hb1
  · rw [hc]; exact hb2
  · rw [ht]; have := totalEntities_pos (extract_metadata tree); omega
  · intro d
    unfold coveragePct
    rw [if_neg (by omega)]

theorem foldl_max_ge (l : List Stmt) :
    ∀ init : Nat, init ≤ l.foldl (fun m s => max m (stmtEnd s)) init := by
  induction l with
  | nil => intro init; simp
  | cons t rest ih =>
    intro init
    rw [List.foldl_cons]
    exact le_trans (le_max_left _ _) (ih _)

theorem stmtEnd_le_foldl_max (l : List Stmt) :
    ∀ (init : Nat), ∀ s ∈ l, stmtEnd s ≤ l.foldl (fun m s => max m (stmtEnd s)) init := by
  induction l with
  | nil => intro _ s hs; simp at hs
  | cons t rest ih =>
    intro init s hs
    rw [List.foldl_cons]
    rcases List.mem_cons.mp hs with h | h
    · subst h
      exact le_trans (le_max_right _ _) (foldl_max_ge rest _)
    · exact ih _ s h

theorem nodeInfoOf_endLineno (s : Stmt) (i : NodeInfo) (h : nodeInfoOf s = some i) :
    i.endLineno = stmtEnd s := by
  cases s <;> simp [nodeInfoOf] at h <;> simp [← h, stmtEnd]

theorem extract_endLineno_le (tree : List Stmt) :
    ∀ i ∈ (bfsWalk tree).filterMap nodeInfoOf, i.endLineno ≤ maxLineOf tree := by
  intro i hi
  rcases List.mem_filterMap.mp hi with ⟨s, hs, hsome⟩
  rw [nodeInfoOf_endLineno s i hsome]
  exact stmtEnd_le_foldl_max (bfsWalk tree) 1 s hs

/-- On an in-file line the first matching entity is the Module; on a line past
the end of the file no entity matches at all. -/
theorem find_entity_eq (tree : List Stmt) (line : Nat) (h1 : 1 ≤ line) :
    (extract_metadata tree).find? (fun n => n.lineno ≤ line && line ≤ n.endLineno) =
      if line ≤ maxLineOf tree then some (moduleInfo tree) else none := by
  unfold extract_metadata
  split
  case isTrue h =>
    apply List.find?_cons_of_pos
    simp [moduleInfo, h1, h]
  case isFalse h =>
    rw [List.find?_cons_of_neg, List.find?_eq_none.mpr]
    · intro i hi
      have := extract_endLineno_le tree i hi
      simp
      intro _
      omega
    · simp [moduleInfo]
      omega

theorem attributeViolation_module (tree : List Stmt) (v : Violation) (acc : List String)
    (hl : 1 ≤ v.line) :
    attributeViolation (extract_metadata tree) acc v = insertSet acc "Module" ∨
    attributeViolation (extract_metadata tree) acc v = acc := by
  unfold attributeViolation
  rw [find_entity_eq tree v.line hl]
  by_cases h : v.line ≤ maxLineOf tree
  · rw [if_pos h]; left; rfl
  · rw [if_neg h]; right; rfl

theorem attributeViolation_module_infile (tree : List Stmt) (v : Violation) (acc : List String)
    (hl : 1 ≤ v.line) (hu : v.line ≤ maxLineOf tree) :
    attributeViolation (extract_metadata tree) acc v = insertSet acc "Module" := by
  unfold attributeViolation
  rw [find_entity_eq tree v.line hl, if_pos hu]
  rfl

theorem insertSet_module_inv (acc : List String) (h : acc = [] ∨ acc = ["Module"]) :
    insertSet acc "Module" = ["Module"] := by
  rcases h with h | h <;> subst h <;> simp [insertSet]

theorem foldl_attribute_inv (tree : List Stmt) :
    ∀ (vs : List Violation) (acc : List String), (∀ v ∈ vs, 1 ≤ v.line) →
      (acc = [] ∨ acc = ["Module"]) →
      (vs.foldl (attributeViolation (extract_metadata tree)) acc = [] ∨
        vs.foldl (attributeViolation (extract_metadata tree)) acc = ["Module"]) := by
  intro vs
  induction vs with
  | nil => intro acc _ hacc; simpa using hacc
  | cons v rest ih =>
    intro acc hl hacc
    rw [List.foldl_cons]
    apply ih _ (fun w hw => hl w (List.mem_cons_of_mem v hw))
    rcases attributeViolation_module tree v acc (hl v (List.mem_cons_self v rest)) with h | h
    · rw [h]; right; exact insertSet_module_inv acc hacc
    · rw [h]; exact hacc

theorem foldl_attribute_infile (tree : List Stmt) :
    ∀ (vs : List Violation) (acc : List String),
      (∀ v ∈ vs, 1 ≤ v.line ∧ v.line ≤ maxLineOf tree) →
      acc = ["Module"] →
      vs.foldl (attributeViolation (extract_metadata tree)) acc = ["Module"] := by
  intro vs
  induction vs with
  | nil => intro acc _ hacc; simpa using hacc
  | cons v rest ih =>
    intro acc hl hacc
    rw [List.foldl_cons]
    apply ih _ (fun w hw => hl w (List.mem_cons_of_mem v hw))
    obtain ⟨h1, h2⟩ := hl v (List.mem_cons_self v rest)
    rw [attributeViolation_module_infile tree v acc h1 h2]
    exact insertSet_module_inv acc (Or.inr hacc)

theorem entitiesWithViolations_sub (tree : List Stmt) (violations : List Violation)
    (hl : ∀ v ∈ violations, 1 ≤ v.line) :
    entitiesWithViolations (extract_metadata tree) violations = [] ∨
    entitiesWithViolations (extract_metadata tree) violations = ["Module"] :=
  foldl_attribute_inv tree violations [] hl (Or.inl rfl)

theorem compliancePct_nil_affected (nodes : List NodeInfo) (violations : List Violation)
    (h : entitiesWithViolations nodes violations = []) :
    compliancePct nodes violations = 100 := by
  unfold compliancePct
  rw [if_pos (totalEntities_pos nodes), h]
  have hne : (totalEntities nodes : ℚ) ≠ 0 :=
    Nat.cast_ne_zero.mpr (totalEntities_pos nodes).ne'
  simp only [List.length_nil]
  push_cast
  rw [sub_zero, div_self hne, one_mul]

theorem compliancePct_one_affected (nodes : List NodeInfo) (violations : List Violation)
    (h : entitiesWithViolations nodes violations = ["Module"]) :
    compliancePct nodes violations =
      ((totalEntities nodes : ℚ) - 1) / (totalEntities nodes : ℚ) * 100 := by
  unfold compliancePct
  rw [if_pos (totalEntities_pos nodes), h]
  push_cast
  norm_num

/-- Claim C2: the Module record is always first in the entity list with span
`[1, maxLine]` (the last line of the file, modelled as the maximum end line
over the walked statement nodes); hence on every in-file violation line the
first matching entity is the Module, the affected set is a subset of
`{"Module"}`, and the compliance percentage is either 100 or
`(total - 1)/total * 100`, no matter how many functions or classes contain
violation lines. -/
theorem claim2_module_absorbs (tree : List Stmt) (style : String)
    (violations : List Violation) (hlines : ∀ v ∈ violations, 1 ≤ v.line) :
    (extract_metadata tree).head? = some (moduleInfo tree) ∧
    (moduleInfo tree).lineno = 1 ∧
    (moduleInfo tree).endLineno = maxLineOf tree ∧
    (∀ v ∈ violations, v.line ≤ maxLineOf tree →
      (extract_metadata tree).find? (fun n => n.lineno ≤ v.line && v.line ≤ n.endLineno) =
        some (moduleInfo tree)) ∧
    (∀ nm ∈ entitiesWithViolations (extract_metadata tree) violations, nm = "Module") ∧
    ((run tree style true (.ok violations)).2.compliancePercentage = 100 ∨
     (run tree style true (.ok violations)).2.compliancePercentage =
       ((totalEntities (extract_metadata tree) : ℚ) - 1) /
         (totalEntities (extract_metadata tree) : ℚ) * 100) := by
  refine ⟨rfl, rfl, rfl, ?_, ?_, ?_⟩
  · intro v hv hin
    rw [find_entity_eq tree v.line (hlines v hv), if_pos hin]
  · intro nm hnm
    rcases entitiesWithViolations_sub tree violations hlines with h | h <;> rw [h] at hnm
    · simp at hnm
    · simpa using hnm
  · cases violations with
    | nil =>
      left
      rw [run_true_snd_nov tree style (.ok []) rfl]
      rfl
    | cons v rest =>
      have he : (validate_docstrings (.ok (v :: rest))).isEmpty = false := rfl
      rw [run_true_snd_viol tree style (.ok (v :: rest)) he]
      show compliancePct (extract_metadata tree) (v :: rest) = 100 ∨
        compliancePct (extract_metadata tree) (v :: rest) = _
      rcases entitiesWithViolations_sub tree (v :: rest) hlines with h | h
      · left; exact compliancePct_nil_affected _ _ h
      · right; exact compliancePct_one_affected _ _ h

def c2Tree : List Stmt :=
  [Stmt.functionDef "foo" 1 2 [] none [.ret 2 2 (some (.name "x"))]]

def c2Viols : List Violation := [⟨"D103", "Missing docstring in public function", 1, "missing"⟩]

/-- Witness for claim C2 at a concrete run: one undocumented function, one
violation on line 1. -/
theorem claim2_witness :
    (∀ v ∈ c2Viols, 1 ≤ v.line) ∧
    ((extract_metadata c2Tree).head? = some (moduleInfo c2Tree) ∧
     (moduleInfo c2Tree).lineno = 1 ∧
     (moduleInfo c2Tree).endLineno = maxLineOf c2Tree ∧
     (∀ v ∈ c2Viols, v.line ≤ maxLineOf c2Tree →
       (extract_metadata c2Tree).find? (fun n => n.lineno ≤ v.line && v.line ≤ n.endLineno) =
         some (moduleInfo c2Tree)) ∧
     (∀ nm ∈ entitiesWithViolations (extract_metadata c2Tree) c2Viols, nm = "Module") ∧
     ((run c2Tree "google" true (.ok c2Viols)).2.compliancePercentage = 100 ∨
      (run c2Tree "google" true (.ok c2Viols)).2.compliancePercentage =
        ((totalEntities (extract_metadata c2Tree) : ℚ) - 1) /
          (totalEntities (extract_metadata c2Tree) : ℚ) * 100)) :=
  ⟨by decide, claim2_module_absorbs c2Tree "google" c2Viols (by decide)⟩

def c1Tree : List Stmt :=
  [ .exprStmt 1 1 (.strLit "module doc"),
    .functionDef "foo" 3 10 [] none [.ret 5 5 (some (.name "x"))] ]

def c1Viols : List Violation := [⟨"D400", "First line should end with a period", 5, "period"⟩]

/-- Counterexample to claim C1 as stated: the entity `foo` spans lines 3–10
and a violation sits on line 5, yet `foo` does not appear in the affected set —
the loop breaks on the Module entity (spanning 1–10), which is first. -/
theorem claim1_counterexample :
    (extract_metadata c1Tree).map (fun n => (n.name, n.lineno, n.endLineno)) =
      [("Module", 1, 10), ("foo", 3, 10)] ∧
    entitiesWithViolations (extract_metadata c1Tree) c1Viols = ["Module"] ∧
    "foo" ∉ entitiesWithViolations (extract_metadata c1Tree) c1Viols := by
  refine ⟨by decide, by decide, by decide⟩

/-- Claim C1 as amended: a violation whose line falls inside an entity's span
causes the first entity in extraction order whose span contains that line —
always the Module — to appear in the affected set, and the compliance
percentage then reflects exactly one affected entity: `(total - 1)/total * 100`. -/
theorem claim1_amended (tree : List Stmt) (style : String) (violations : List Violation)
    (hne : violations ≠ [])
    (hlines : ∀ v ∈ violations, 1 ≤ v.line ∧ v.line ≤ maxLineOf tree) :
    entitiesWithViolations (extract_metadata tree) violations = ["Module"] ∧
    (∀ v ∈ violations,
      (extract_metadata tree).find? (fun n => n.lineno ≤ v.line && v.line ≤ n.endLineno) =
        some (moduleInfo tree)) ∧
    (run tree style true (.ok violations)).2.compliancePercentage =
      ((totalEntities (extract_metadata tree) : ℚ) - 1) /
        (totalEntities (extract_metadata tree) : ℚ) * 100 := by
  cases violations with
  | nil => exact absurd rfl hne
  | cons v rest =>
    obtain ⟨h1, h2⟩ := hlines v (List.mem_cons_self v rest)
    have haff : entitiesWithViolations (extract_metadata tree) (v :: rest) = ["Module"] := by
      unfold entitiesWithViolations
      rw [List.foldl_cons, attributeViolation_module_infile tree v [] h1 h2,
        insertSet_module_inv [] (Or.inl rfl)]
      exact foldl_attribute_infile tree rest ["Module"]
        (fun w hw => hlines w (List.mem_cons_of_mem v hw)) rfl
    refine ⟨haff, ?_, ?_⟩
    · intro w hw
      obtain ⟨hw1, hw2⟩ := hlines w hw
      rw [find_entity_eq tree w.line hw1, if_pos hw2]
    · have he : (validate_docstrings (.ok (v :: rest))).isEmpty = false := rfl
      rw [run_true_snd_viol tree style (.ok (v :: rest)) he]
      exact compliancePct_one_affected _ _ haff

/-- Witness for the amended claim C1 at the concrete counterexample run. -/
theorem claim1_amended_witness :
    (c1Viols ≠ [] ∧ ∀ v ∈ c1Viols, 1 ≤ v.line ∧ v.line ≤ maxLineOf c1Tree) ∧
    (entitiesWithViolations (extract_metadata c1Tree) c1Viols = ["Module"] ∧
     (∀ v ∈ c1Viols,
       (extract_metadata c1Tree).find? (fun n => n.lineno ≤ v.line && v.line ≤ n.endLineno) =
         some (moduleInfo c1Tree)) ∧
     (run c1Tree "google" true (.ok c1Viols)).2.compliancePercentage =
       ((totalEntities (extract_metadata c1Tree) : ℚ) - 1) /
         (totalEntities (extract_metadata c1Tree) : ℚ) * 100) :=
  ⟨⟨by decide, by decide⟩, claim1_amended c1Tree "google" c1Viols (by decide) (by decide)⟩

mutual
/-- Modelled from the spec: whether a return statement carrying an explicit
value exists in an entity's *own* body — descending through compound
statements but not into nested function or class bodies ("not in nested
function/class bodies", spec section 4.1).  This notion exists only to state
claim C4; the code itself has no such scoping. -/
def specOwnValueReturn : Stmt → Bool
  | .ret _ _ (some _) => true
  | .compound _ _ _ body => specOwnValueReturnList body
  | _ => false

/-- Modelled from the spec: `specOwnValueReturn` over a body. -/
def specOwnValueReturnList : List Stmt → Bool
  | [] => false
  | s :: rest => specOwnValueReturn s || specOwnValueReturnList rest
end

def c4Body : List Stmt :=
  [Stmt.functionDef "g" 2 3 [] none [.ret 3 3 (some (.name "x"))]]

/-- Counterexample to claim C4 as stated: `f`'s own body holds no
value-carrying return (only the nested function `g` does), yet extraction
sets `f`'s `returns` flag — `ast.walk` descends into nested definitions. -/
theorem claim4_counterexample :
    specOwnValueReturnList c4Body = false ∧
    (extract_metadata [Stmt.functionDef "f" 1 3 [] none c4Body]).map
      (fun n => (n.name, n.returns)) = [("Module", false), ("f", true), ("g", true)] := by
  exact ⟨rfl, by decide⟩

/-- Claim C4 as amended: the `returns` flag is set exactly when a return
statement carrying an explicit value exists anywhere in the function's
subtree, nested function and class bodies included. -/
theorem claim4_amended (nm : String) (ln el : Nat) (args : List Arg)
    (ra : Option String) (body : List Stmt) :
    Option.map NodeInfo.returns (nodeInfoOf (.functionDef nm ln el args ra body)) =
        some true ↔
      ∃ s ∈ allNodes (.functionDef nm ln el args ra body), isValueReturn s = true := by
  have h1 : Option.map NodeInfo.returns (nodeInfoOf (.functionDef nm ln el args ra body)) =
      some (funcReturns (.functionDef nm ln el args ra body)) := rfl
  rw [h1, Option.some_inj]
  unfold funcReturns
  rw [bfsWalk_any isValueReturn (stmtListWeight [Stmt.functionDef nm ln el args ra body]) _
    (le_refl _)]
  show (allNodesList [Stmt.functionDef nm ln el args ra body]).any isValueReturn = true ↔ _
  have h2 : allNodesList [Stmt.functionDef nm ln el args ra body] =
      allNodes (.functionDef nm ln el args ra body) := by
    show allNodes _ ++ allNodesList [] = _
    simp [allNodesList]
  rw [h2, List.any_eq_true]

def c5Args : List Arg := [⟨"a", none⟩, ⟨"self", none⟩]

/-- Counterexample to claim C5 as stated: a parameter named `self` in the
second (non-first) position is nevertheless excluded from the extracted
parameter list — the loop skips `self`/`cls` at any position. -/
theorem claim5_counterexample :
    (extract_metadata [Stmt.functionDef "f" 1 2 c5Args none
        [.ret 2 2 (some (.name "a"))]]).map (fun n => (n.name, n.params)) =
      [("Module", []), ("f", [("a", none)])] ∧
    ("self", (none : Option String)) ∉ funcParams c5Args ∧
    c5Args[1]? = some ⟨"self", none⟩ := by
  refine ⟨by decide, by decide, by decide⟩

theorem funcParams_foldl (args : List Arg) :
    ∀ acc, args.foldl (fun acc a =>
        if a.arg = "self" ∨ a.arg = "cls" then acc else acc ++ [(a.arg, a.annot)]) acc =
      acc ++ (args.filter fun a => ¬(a.arg = "self" ∨ a.arg = "cls")).map
        (fun a => (a.arg, a.annot)) := by
  induction args with
  | nil => intro acc; simp
  | cons a args ih =>
    intro acc
    rw [List.foldl_cons, List.filter_cons]
    by_cases h : a.arg = "self" ∨ a.arg = "cls"
    · rw [if_pos h, ih acc]
      simp [h]
    · rw [if_neg h, ih (acc ++ [(a.arg, a.annot)])]
      simp [h]

/-- Claim C5 as amended: a parameter named `self` or `cls` is excluded from
the extracted parameter list at *any* position, and every other parameter
appears in declaration order together with its annotation text. -/
theorem claim5_amended (nm : String) (ln el : Nat) (args : List Arg)
    (ra : Option String) (body : List Stmt) :
    funcParams args =
      (args.filter fun a => ¬(a.arg = "self" ∨ a.arg = "cls")).map
        (fun a => (a.arg, a.annot)) ∧
    Option.map NodeInfo.params (nodeInfoOf (.functionDef nm ln el args ra body)) =
      some ((args.filter fun a => ¬(a.arg = "self" ∨ a.arg = "cls")).map
        (fun a => (a.arg, a.annot))) := by
  have h := funcParams_foldl args []
  rw [List.nil_append] at h
  exact ⟨h, congrArg some h⟩

theorem generate_function_google (g : DocstringGenerator) (info : NodeInfo)
    (h : g.style = "google") (ht : info.type = "function") :
    g.generate info = generateGoogleFunc info := by
  unfold DocstringGenerator.generate
  rw [if_pos ht, if_pos h]

theorem generate_function_numpy (g : DocstringGenerator) (info : NodeInfo)
    (h : g.style = "numpy") (ht : info.type = "function") :
    g.generate info = generateNumpyFunc info := by
  unfold DocstringGenerator.generate
  rw [if_pos ht, if_neg (by simp [h]), if_pos h]

theorem generate_function_rest (g : DocstringGenerator) (info : NodeInfo)
    (h : g.style = "rest") (ht : info.type = "function") :
    g.generate info = generateRestFunc info := by
  unfold DocstringGenerator.generate
  rw [if_pos ht, if_neg (by simp [h]), if_neg (by simp [h]), if_pos h]

theorem generate_class (g : DocstringGenerator) (info : NodeInfo)
    (hk : info.type = "class") :
    g.generate info = generateClassDoc g.style info := by
  unfold DocstringGenerator.generate
  rw [if_neg (by simp [hk]), if_pos hk]

/-- The yields-section marker each convention emits. -/
def yieldsMarker (style : String) : String :=
  if style = "google" then "\nYields:\n"
  else if style = "numpy" then "\nYields\n------\n"
  else "\n:yields:"

/-- Claim C7: for a function entity that is both a generator and returns a
value, every one of the three conventions emits the Yields section and
suppresses the Returns section (the output does not depend on the `returns`
flag at all when `yields` is set). -/
theorem claim7_yields_dominate (g : DocstringGenerator) (info : NodeInfo)
    (hstyle : g.style = "google" ∨ g.style = "numpy" ∨ g.style = "rest")
    (htype : info.type = "function") (hy : info.yields = true)
    (hr : info.returns = true) :
    (∃ a b, g.generate info = a ++ yieldsMarker g.style ++ b) ∧
    g.generate info = g.generate { info with returns := false } := by
  have htype' : ({ info with returns := false } : NodeInfo).type = "function" := htype
  rcases hstyle with h | h | h
  · rw [generate_function_google g info h htype,
      generate_function_google g _ h htype', h]
    constructor
    · refine ⟨"\"\"\"" ++ info.name ++ " function.\n\n" ++ googleParamsBlock info.params,
        "    Description of the yielded values.\n" ++ googleRaisesBlock info.raises ++
          "\"\"\"", ?_⟩
      simp only [generateGoogleFunc, googleBodyBlock, hy, if_true, yieldsMarker,
        String.append_assoc]
    · simp only [generateGoogleFunc, googleBodyBlock, hy, if_true]
  · rw [generate_function_numpy g info h htype,
      generate_function_numpy g _ h htype', h]
    constructor
    · refine ⟨"\"\"\"" ++ info.name ++ " function.\n\n" ++ numpyParamsBlock info.params,
        "Description of the yielded values.\n" ++ numpyRaisesBlock info.raises ++
          "\"\"\"", ?_⟩
      rw [show yieldsMarker "numpy" = "\nYields\n------\n" from rfl]
      simp only [generateNumpyFunc, numpyBodyBlock, hy, if_true, String.append_assoc]
    · simp only [generateNumpyFunc, numpyBodyBlock, hy, if_true]
  · rw [generate_function_rest g info h htype,
      generate_function_rest g _ h htype', h]
    constructor
    · refine ⟨"\"\"\"" ++ info.name ++ " function.\n\n" ++ restParamsBlock info.params,
        " Description of the yielded values.\n" ++ restRaisesBlock info.raises ++
          "\"\"\"", ?_⟩
      rw [show yieldsMarker "rest" = "\n:yields:" from rfl]
      simp only [generateRestFunc, restBodyBlock, hy, if_true]
      rw [show ("\n:yields: Description of the yielded values.\n" : String) =
        "\n:yields:" ++ " Description of the yielded values.\n" from rfl]
      simp only [String.append_assoc]
    · simp only [generateRestFunc, restBodyBlock, hy, if_true]

def c7Info : NodeInfo :=
  { type := "function", name := "gen", lineno := 1, endLineno := 4,
    returns := true, yields := true, hasDocstring := false }

/-- Witness for claim C7: a concrete generator-and-returns function under the
google convention. -/
theorem claim7_witness :
    ((DocstringGenerator.mk "google").style = "google" ∧ c7Info.type = "function" ∧
      c7Info.yields = true ∧ c7Info.returns = true) ∧
    ((∃ a b, (DocstringGenerator.mk "google").generate c7Info =
        a ++ yieldsMarker (DocstringGenerator.mk "google").style ++ b) ∧
     (DocstringGenerator.mk "google").generate c7Info =
       (DocstringGenerator.mk "google").generate { c7Info with returns := false }) :=
  ⟨⟨rfl, rfl, rfl, rfl⟩,
    claim7_yields_dominate ⟨"google"⟩ c7Info (Or.inl rfl) rfl rfl rfl⟩

theorem perm_isEmpty_eq {α : Type} {l l' : List α} (h : l.Perm l') :
    l.isEmpty = l'.isEmpty := by
  cases l with
  | nil =>
    rw [List.nil_perm] at h
    rw [← h]
  | cons a t =>
    cases l' with
    | nil => exact absurd (List.perm_nil.mp h) (by simp)
    | cons b t' => rfl

theorem googleRaisesBlock_perm (l l' : List String) (h : l.Perm l') :
    googleRaisesBlock l = googleRaisesBlock l' := by
  unfold googleRaisesBlock
  rw [sortedStrings_congr_perm h, perm_isEmpty_eq h]

theorem numpyRaisesBlock_perm (l l' : List String) (h : l.Perm l') :
    numpyRaisesBlock l = numpyRaisesBlock l' := by
  unfold numpyRaisesBlock
  rw [sortedStrings_congr_perm h, perm_isEmpty_eq h]

theorem restRaisesBlock_perm (l l' : List String) (h : l.Perm l') :
    restRaisesBlock l = restRaisesBlock l' := by
  unfold restRaisesBlock
  rw [sortedStrings_congr_perm h, perm_isEmpty_eq h]

/-- The raises-section line each convention emits for one error name. -/
def raiseLine (style : String) (r : String) : String :=
  if style = "google" then googleRaiseLine r
  else if style = "numpy" then numpyRaiseLine r
  else restRaiseLine r

theorem raiseLine_google : raiseLine "google" = googleRaiseLine := by
  funext r
  simp [raiseLine]

theorem raiseLine_numpy : raiseLine "numpy" = numpyRaiseLine := by
  funext r
  simp [raiseLine]

theorem raiseLine_rest : raiseLine "rest" = restRaiseLine := by
  funext r
  simp [raiseLine]

theorem isEmpty_false_of_ne_nil {α : Type} {l : List α} (h : l ≠ []) :
    l.isEmpty = false := by
  cases l with
  | nil => exact absurd rfl h
  | cons a t => rfl

/-- Claim C8: under every convention the raises section renders the error
names in ascending lexicographic order — the output is invariant under any
permutation of the collected list, and the rendered section is the line-by-
line image of a sorted enumeration of the collected names. -/
theorem claim8_sorted_raises (g : DocstringGenerator) (info : NodeInfo)
    (hstyle : g.style = "google" ∨ g.style = "numpy" ∨ g.style = "rest")
    (htype : info.type = "function") :
    (∀ l l', l.Perm l' →
      g.generate { info with raises := l } = g.generate { info with raises := l' }) ∧
    ∃ rs a b, List.Sorted strLeRel rs ∧ rs.Perm info.raises ∧
      g.generate info = a ++ String.join (rs.map (raiseLine g.style)) ++ b := by
  rcases hstyle with h | h | h
  · constructor
    · intro l l' hperm
      rw [generate_function_google g { info with raises := l } h htype,
        generate_function_google g { info with raises := l' } h htype]
      show "\"\"\"" ++ info.name ++ " function.\n\n" ++ googleParamsBlock info.params ++
          googleBodyBlock { info with raises := l } ++ googleRaisesBlock l ++ "\"\"\"" = _
      rw [show googleBodyBlock { info with raises := l } =
          googleBodyBlock { info with raises := l' } from rfl,
        googleRaisesBlock_perm l l' hperm]
      rfl
    · refine ⟨sortedStrings info.raises, ?_⟩
      rw [generate_function_google g _ h htype, h, raiseLine_google]
      by_cases hr : info.raises = []
      · refine ⟨"\"\"\"" ++ info.name ++ " function.\n\n" ++ googleParamsBlock info.params ++
          googleBodyBlock info, "\"\"\"", sortedStrings_sorted _, sortedStrings_perm _, ?_⟩
        rw [hr, show sortedStrings [] = [] from rfl, List.map_nil,
          show (String.join [] : String) = "" from rfl]
        simp only [generateGoogleFunc, googleRaisesBlock, hr, List.isEmpty_nil, if_true,
          String.append_empty, String.empty_append, String.append_assoc]
      · refine ⟨"\"\"\"" ++ info.name ++ " function.\n\n" ++ googleParamsBlock info.params ++
          googleBodyBlock info ++ "\nRaises:\n", "\"\"\"",
          sortedStrings_sorted _, sortedStrings_perm _, ?_⟩
        simp only [generateGoogleFunc, googleRaisesBlock, isEmpty_false_of_ne_nil hr,
          Bool.false_eq_true, if_false, String.append_assoc]
  · constructor
    · intro l l' hperm
      rw [generate_function_numpy g { info with raises := l } h htype,
        generate_function_numpy g { info with raises := l' } h htype]
      show "\"\"\"" ++ info.name ++ " function.\n\n" ++ numpyParamsBlock info.params ++
          numpyBodyBlock { info with raises := l } ++ numpyRaisesBlock l ++ "\"\"\"" = _
      rw [show numpyBodyBlock { info with raises := l } =
          numpyBodyBlock { info with raises := l' } from rfl,
        numpyRaisesBlock_perm l l' hperm]
      rfl
    · refine ⟨sortedStrings info.raises, ?_⟩
      rw [generate_function_numpy g _ h htype, h, raiseLine_numpy]
      by_cases hr : info.raises = []
      · refine ⟨"\"\"\"" ++ info.name ++ " function.\n\n" ++ numpyParamsBlock info.params ++
          numpyBodyBlock info, "\"\"\"", sortedStrings_sorted _, sortedStrings_perm _, ?_⟩
        rw [hr, show sortedStrings [] = [] from rfl, List.map_nil,
          show (String.join [] : String) = "" from rfl]
        simp only [generateNumpyFunc, numpyRaisesBlock, hr, List.isEmpty_nil, if_true,
          String.append_empty, String.empty_append, String.append_assoc]
      · refine ⟨"\"\"\"" ++ info.name ++ " function.\n\n" ++ numpyParamsBlock info.params ++
          numpyBodyBlock info ++ "\nRaises\n------\n", "\"\"\"",
          sortedStrings_sorted _, sortedStrings_perm _, ?_⟩
        simp only [generateNumpyFunc, numpyRaisesBlock, isEmpty_false_of_ne_nil hr,
          Bool.false_eq_true, if_false, String.append_assoc]
  · constructor
    · intro l l' hperm
      rw [generate_function_rest g { info with raises := l } h htype,
        generate_function_rest g { info with raises := l' } h htype]
      show "\"\"\"" ++ info.name ++ " function.\n\n" ++ restParamsBlock info.params ++
          restBodyBlock { info with raises := l } ++ restRaisesBlock l ++ "\"\"\"" = _
      rw [show restBodyBlock { info with raises := l } =
          restBodyBlock { info with raises := l' } from rfl,
        restRaisesBlock_perm l l' hperm]
      rfl
    · refine ⟨sortedStrings info.raises, ?_⟩
      rw [generate_function_rest g _ h htype, h, raiseLine_rest]
      by_cases hr : info.raises = []
      · refine ⟨"\"\"\"" ++ info.name ++ " function.\n\n" ++ restParamsBlock info.params ++
          restBodyBlock info, "\"\"\"", sortedStrings_sorted _, sortedStrings_perm _, ?_⟩
        rw [hr, show sortedStrings [] = [] from rfl, List.map_nil,
          show (String.join [] : String) = "" from rfl]
        simp only [generateRestFunc, restRaisesBlock, hr, List.isEmpty_nil, if_true,
          String.append_empty, String.empty_append, String.append_assoc]
      · refine ⟨"\"\"\"" ++ info.name ++ " function.\n\n" ++ restParamsBlock info.params ++
          restBodyBlock info, "\"\"\"",
          sortedStrings_sorted _, sortedStrings_perm _, ?_⟩
        simp only [generateRestFunc, restRaisesBlock, isEmpty_false_of_ne_nil hr,
          Bool.false_eq_true, if_false, String.append_assoc]

def c8Info : NodeInfo :=
  { type := "function", name := "f", lineno := 1, endLineno := 4,
    raises := ["ValueError", "KeyError"], hasDocstring := false }

/-- Witness for claim C8: a concrete function whose raise statements were
discovered in non-sorted order. -/
theorem claim8_witness :
    ((DocstringGenerator.mk "google").style = "google" ∧ c8Info.type = "function") ∧
    ((∀ l l', l.Perm l' →
        (DocstringGenerator.mk "google").generate { c8Info with raises := l } =
          (DocstringGenerator.mk "google").generate { c8Info with raises := l' }) ∧
     ∃ rs a b, List.Sorted strLeRel rs ∧ rs.Perm c8Info.raises ∧
       (DocstringGenerator.mk "google").generate c8Info =
         a ++ String.join (rs.map (raiseLine (DocstringGenerator.mk "google").style)) ++ b) :=
  ⟨⟨rfl, rfl⟩, claim8_sorted_raises ⟨"google"⟩ c8Info (Or.inl rfl) rfl⟩

/-- Counterexample to claim C6 as stated: the Module entity has no
documentation, `run` synthesizes for it, and the synthesized text is the empty
string — which does not contain the entity's name `"Module"`.  (`generate`
recognizes only function and class kinds and falls through to `""`.) -/
theorem claim6_counterexample :
    (run [] "google" false (.ok [])).1 =
      [{ name := "Module", type := "module", docstring := "" }] ∧
    (extract_metadata []).map (fun n => (n.name, n.type, n.hasDocstring)) =
      [("Module", "module", false)] ∧
    ¬ ∃ a b : String, "" = a ++ "Module" ++ b := by
  refine ⟨by decide, by decide, ?_⟩
  rintro ⟨a, b, hab⟩
  have hlen := congrArg String.length hab
  rw [String.length_append, String.length_append] at hlen
  have h6 : ("Module" : String).length = 6 := rfl
  have h0 : ("" : String).length = 0 := rfl
  omega

/-- The per-parameter chunk each convention emits in its parameter section. -/
def paramChunk (style : String) (pt : String × Option String) : String :=
  if style = "google" then googleParamLine pt
  else if style = "numpy" then numpyParamLine pt
  else restParamChunk pt

theorem paramChunk_google : paramChunk "google" = googleParamLine := by
  funext pt
  simp [paramChunk]

theorem paramChunk_numpy : paramChunk "numpy" = numpyParamLine := by
  funext pt
  simp [paramChunk]

theorem paramChunk_rest : paramChunk "rest" = restParamChunk := by
  funext pt
  simp [paramChunk]

/-- Claim C6 as amended: for every *function or class* entity (not the Module
entity) without documentation, under each supported convention the
synthesized text contains the entity's name, and for a function with
parameters it contains the concatenation, in parameter order, of one
per-parameter chunk, each holding that parameter's description line. -/
theorem claim6_amended (g : DocstringGenerator) (info : NodeInfo)
    (hstyle : g.style = "google" ∨ g.style = "numpy" ∨ g.style = "rest")
    (hkind : info.type = "function" ∨ info.type = "class")
    (hdoc : info.hasDocstring = false) :
    (∃ a b, g.generate info = a ++ info.name ++ b) ∧
    (info.type = "function" → info.params ≠ [] →
      (∃ a b, g.generate info =
        a ++ String.join (info.params.map (paramChunk g.style)) ++ b) ∧
      ∀ pt ∈ info.params, ∃ c d,
        paramChunk g.style pt = c ++ ("Description for " ++ pt.1 ++ ".") ++ d) := by
  constructor
  · rcases hkind with hf | hc
    · rcases hstyle with h | h | h
      · refine ⟨"\"\"\"", " function.\n\n" ++ googleParamsBlock info.params ++
          googleBodyBlock info ++ googleRaisesBlock info.raises ++ "\"\"\"", ?_⟩
        rw [generate_function_google g info h hf]
        simp only [generateGoogleFunc, String.append_assoc]
      · refine ⟨"\"\"\"", " function.\n\n" ++ numpyParamsBlock info.params ++
          numpyBodyBlock info ++ numpyRaisesBlock info.raises ++ "\"\"\"", ?_⟩
        rw [generate_function_numpy g info h hf]
        simp only [generateNumpyFunc, String.append_assoc]
      · refine ⟨"\"\"\"", " function.\n\n" ++ restParamsBlock info.params ++
          restBodyBlock info ++ restRaisesBlock info.raises ++ "\"\"\"", ?_⟩
        rw [generate_function_rest g info h hf]
        simp only [generateRestFunc, String.append_assoc]
    · refine ⟨"\"\"\"", " class.\n\n" ++ classAttrBlock g.style info.attributes ++
        "\"\"\"", ?_⟩
      rw [generate_class g info hc]
      simp only [generateClassDoc, String.append_assoc]
  · intro hf hp
    have hne : info.params.isEmpty = false := isEmpty_false_of_ne_nil hp
    rcases hstyle with h | h | h
    · rw [generate_function_google g info h hf, h, paramChunk_google]
      constructor
      · refine ⟨"\"\"\"" ++ info.name ++ " function.\n\n" ++ "Args:\n",
          googleBodyBlock info ++ googleRaisesBlock info.raises ++ "\"\"\"", ?_⟩
        simp only [generateGoogleFunc, googleParamsBlock, hne, Bool.false_eq_true,
          if_false, String.append_assoc]
      · rintro ⟨p, t⟩ hpt
        cases t with
        | none =>
          refine ⟨"    " ++ p ++ ": ", "\n", ?_⟩
          simp only [googleParamLine]
          rw [show (": Description for " : String) = ": " ++ "Description for " from rfl,
            show (".\n" : String) = "." ++ "\n" from rfl]
          simp only [String.append_assoc, String.append_empty, String.empty_append]
        | some ty =>
          refine ⟨"    " ++ p ++ (" (" ++ ty ++ ")") ++ ": ", "\n", ?_⟩
          simp only [googleParamLine]
          rw [show (": Description for " : String) = ": " ++ "Description for " from rfl,
            show (".\n" : String) = "." ++ "\n" from rfl]
          simp only [String.append_assoc]
    · rw [generate_function_numpy g info h hf, h, paramChunk_numpy]
      constructor
      · refine ⟨"\"\"\"" ++ info.name ++ " function.\n\n" ++ "Parameters\n----------\n",
          numpyBodyBlock info ++ numpyRaisesBlock info.raises ++ "\"\"\"", ?_⟩
        simp only [generateNumpyFunc, numpyParamsBlock, hne, Bool.false_eq_true,
          if_false, String.append_assoc]
      · rintro ⟨p, t⟩ hpt
        cases t with
        | none =>
          refine ⟨p ++ "\n    ", "\n", ?_⟩
          simp only [numpyParamLine]
          rw [show ("\n    Description for " : String) =
              "\n    " ++ "Description for " from rfl,
            show (".\n" : String) = "." ++ "\n" from rfl]
          simp only [String.append_assoc, String.append_empty, String.empty_append]
        | some ty =>
          refine ⟨p ++ (" : " ++ ty) ++ "\n    ", "\n", ?_⟩
          simp only [numpyParamLine]
          rw [show ("\n    Description for " : String) =
              "\n    " ++ "Description for " from rfl,
            show (".\n" : String) = "." ++ "\n" from rfl]
          simp only [String.append_assoc]
    · rw [generate_function_rest g info h hf, h, paramChunk_rest]
      constructor
      · refine ⟨"\"\"\"" ++ info.name ++ " function.\n\n",
          restBodyBlock info ++ restRaisesBlock info.raises ++ "\"\"\"", ?_⟩
        simp only [generateRestFunc, restParamsBlock, String.append_assoc]
      · rintro ⟨p, t⟩ hpt
        cases t with
        | none =>
          refine ⟨":param " ++ p ++ ": ", "\n", ?_⟩
          simp only [restParamChunk]
          rw [show (": Description for " : String) = ": " ++ "Description for " from rfl,
            show (".\n" : String) = "." ++ "\n" from rfl]
          simp only [String.append_assoc, String.append_empty, String.empty_append]
        | some ty =>
          refine ⟨":param " ++ p ++ ": ", "\n" ++ (":type " ++ p ++ ": " ++ ty ++ "\n"), ?_⟩
          simp only [restParamChunk]
          rw [show (": Description for " : String) = ": " ++ "Description for " from rfl,
            show (".\n" : String) = "." ++ "\n" from rfl]
          simp only [String.append_assoc]

def c6Info : NodeInfo :=
  { type := "function", name := "f", lineno := 1, endLineno := 3,
    params := [("a", some "int"), ("b", none)], hasDocstring := false }

/-- Witness for the amended claim C6: a concrete undocumented two-parameter
function under the google convention. -/
theorem claim6_witness :
    ((DocstringGenerator.mk "google").style = "google" ∧
      (c6Info.type = "function" ∨ c6Info.type = "class") ∧
      c6Info.hasDocstring = false ∧ c6Info.params ≠ []) ∧
    ((∃ a b, (DocstringGenerator.mk "google").generate c6Info = a ++ c6Info.name ++ b) ∧
     (∃ a b, (DocstringGenerator.mk "google").generate c6Info =
       a ++ String.join (c6Info.params.map
         (paramChunk (DocstringGenerator.mk "google").style)) ++ b) ∧
     ∀ pt ∈ c6Info.params, ∃ c d,
       paramChunk (DocstringGenerator.mk "google").style pt =
         c ++ ("Description for " ++ pt.1 ++ ".") ++ d) := by
  have h := claim6_amended ⟨"google"⟩ c6Info (Or.inl rfl) (Or.inl rfl) rfl
  exact ⟨⟨rfl, Or.inl rfl, rfl, by decide⟩,
    h.1, (h.2 rfl (by decide)).1, (h.2 rfl (by decide)).2⟩

end AutoDocstring
